import Mathlib

/-!
Verification of the `data-eater-core` snowflake identifier module
(`src/crates/data-eater-core/src/snowflake.rs`), shallowly embedded over `Nat`.

Machine integers are modelled as `Nat` with explicit `% 2 ^ w` where the Rust
code truncates (u64 casts, bitfield setters, u16 wrapping increment).  A bit
range `hi..lo` of a word `x` is `x / 2 ^ lo % 2 ^ (hi - lo + 1)`, which is
exactly the shift-and-mask the `bitfield!` macro generates; masking with the
low-bit constant `0xFFFFFFFFFFFF` is `% 2 ^ 48`.
-/

set_option maxHeartbeats 1000000

namespace DataEater

/-- chrono's `DateTime<Utc>`, modelled by its timestamp in microseconds since
the Unix epoch.  Every `DateTime` produced here comes from
`DateTime::from_timestamp_micros`, whose outputs are determined by (and
determine) that microsecond count, so equality of `DateTime`s is equality of
`micros`. -/
structure DateTime where
  micros : Int
deriving DecidableEq, Repr

/-- chrono's `DateTime::from_timestamp_micros : i64 -> Option<DateTime<Utc>>`.
Modelled from the chrono documentation: it succeeds exactly when the input
lies in the representable calendar range (years -262143..=262142); the bounds
below are that range in microseconds.  Their exact values are immaterial to
every theorem in this file: all decoded values lie in `[0, 2 ^ 43)`, far
inside the range. -/
def DateTime.fromTimestampMicros (n : Int) : Option DateTime :=
  if -8334601228800000000 ≤ n ∧ n ≤ 8210266876799999999 then some ⟨n⟩ else none

/-- `struct Snowflake(u64)`: the raw 64-bit identifier.  All constructors in
this file keep `raw < 2 ^ 64`. -/
structure Snowflake where
  raw : Nat
deriving DecidableEq, Repr

namespace Snowflake

/-- Bitfield getter `timestamp_raw`: bits 62..20 (43 bits). -/
def timestamp_raw (s : Snowflake) : Nat := s.raw / 2 ^ 20 % 2 ^ 43

/-- Bitfield getter `machine_id_` (public accessor `machine_id`):
bits 19..10 (10 bits). -/
def machine_id (s : Snowflake) : Nat := s.raw / 2 ^ 10 % 2 ^ 10

/-- Bitfield getter `sequence_id_` (public accessor `sequence_id`):
bits 9..0 (10 bits). -/
def sequence_id (s : Snowflake) : Nat := s.raw % 2 ^ 10

/-- Bitfield setter `set_timestamp_raw`: replaces bits 62..20 with the low
43 bits of `v`, keeping bits 19..0 and bit 63. -/
def set_timestamp_raw (s : Snowflake) (v : Nat) : Snowflake :=
  ⟨s.raw % 2 ^ 20 + v % 2 ^ 43 * 2 ^ 20 + s.raw / 2 ^ 63 % 2 * 2 ^ 63⟩

/-- Bitfield setter `set_machine_id_`: replaces bits 19..10 with the low
10 bits of `v`, keeping bits 9..0 and bits 63..20. -/
def set_machine_id (s : Snowflake) (v : Nat) : Snowflake :=
  ⟨s.raw % 2 ^ 10 + v % 2 ^ 10 * 2 ^ 10 + s.raw / 2 ^ 20 * 2 ^ 20⟩

/-- Bitfield setter `set_sequence_id_`: replaces bits 9..0 with the low
10 bits of `v`. -/
def set_sequence_id (s : Snowflake) (v : Nat) : Snowflake :=
  ⟨s.raw / 2 ^ 10 * 2 ^ 10 + v % 2 ^ 10⟩

/-- `Snowflake::new(machine_id, sequence_id, time)`.  `time` is passed as its
millisecond count since the Unix epoch (`duration_since(UNIX_EPOCH)
.unwrap().as_millis()`, a u128, here a `Nat`); `as u64` truncates it with
`% 2 ^ 64` before the setter keeps its low 43 bits. -/
def new (machineId seqId timeMillis : Nat) : Snowflake :=
  (((Snowflake.mk 0).set_timestamp_raw (timeMillis % 2 ^ 64)).set_machine_id
      machineId).set_sequence_id seqId

/-- `Snowflake::timestamp` before the `.expect`: the `Option` returned by
`DateTime::from_timestamp_micros(self.timestamp_raw() as i64)`. -/
def timestampChecked (s : Snowflake) : Option DateTime :=
  DateTime.fromTimestampMicros (s.timestamp_raw : Int)

/-- `Snowflake::timestamp`.  The `none` branch is the `.expect("Should always
be valid")` panic; it is proved unreachable (`timestampChecked` is always
`some`), so `getD` only ever takes the `some` branch. -/
def timestamp (s : Snowflake) : DateTime :=
  s.timestampChecked.getD ⟨0⟩

/-- `Snowflake::decompose`. -/
def decompose (s : Snowflake) : DateTime × Nat × Nat :=
  (s.timestamp, s.machine_id, s.sequence_id)

/-- `impl From<Snowflake> for u64`. -/
def toRaw (s : Snowflake) : Nat := s.raw

/-- Derived `Ord`/`PartialOrd` on `struct Snowflake(u64)`: comparison of the
raw 64-bit value. -/
def lt (a b : Snowflake) : Prop := a.raw < b.raw

instance decLt (a b : Snowflake) : Decidable (Snowflake.lt a b) :=
  Nat.decLt a.raw b.raw

end Snowflake

/-- `SnowflakeFormatError`. -/
inductive SnowflakeFormatError where
  | mk
deriving DecidableEq, Repr

/-- `impl TryFrom<u64> for Snowflake`: errors when `(value >> 63) & 0b1 == 1`
(bit 63 set), otherwise wraps the value unchanged. -/
def Snowflake.tryFromU64 (v : Nat) : Except SnowflakeFormatError Snowflake :=
  if v / 2 ^ 63 % 2 = 1 then Except.error SnowflakeFormatError.mk
  else Except.ok ⟨v⟩

/-- `const SNOWFLAKE_TIMESTAMP_MASK: u64 = 0xFFFFFFFFFFFF` (48 low bits). -/
def SNOWFLAKE_TIMESTAMP_MASK : Nat := 0xFFFFFFFFFFFF

/-- `struct SnowflakeFactory`: `machine_id: u16`, `sequence_id: u16`,
`last_timestamp_millis: u64`. -/
structure SnowflakeFactory where
  machine_id : Nat
  sequence_id : Nat
  last_timestamp_millis : Nat
deriving DecidableEq, Repr

/-- `SnowflakeFactory::next`.  The single `SystemTime::now()` reading is the
input `nowMillis` (its millisecond count since the Unix epoch).  The masked
reading is `as_millis() as u64 & SNOWFLAKE_TIMESTAMP_MASK`, i.e.
`nowMillis % 2 ^ 64 % 2 ^ 48`.  The u16 counter increment wraps `% 2 ^ 16`
(release-mode Rust semantics); `Snowflake::new` receives the unmasked
`SystemTime`, hence `nowMillis` itself. -/
def SnowflakeFactory.next (f : SnowflakeFactory) (nowMillis : Nat) :
    SnowflakeFactory × Snowflake :=
  let timestampMillis := nowMillis % 2 ^ 64 % (SNOWFLAKE_TIMESTAMP_MASK + 1)
  let f1 :=
    if f.last_timestamp_millis = timestampMillis then
      { f with sequence_id := (f.sequence_id + 1) % 2 ^ 16 }
    else
      { f with sequence_id := 0, last_timestamp_millis := timestampMillis }
  (f1, Snowflake.new f.machine_id f1.sequence_id nowMillis)

/-- `k + 1` consecutive `next()` calls, all observing the same clock reading
`m`; returns the state after, and the snowflake of, the final call. -/
def SnowflakeFactory.nextN (f : SnowflakeFactory) (m : Nat) :
    Nat → SnowflakeFactory × Snowflake
  | 0 => f.next m
  | k + 1 => (f.nextN m k).1.next m

/-- A run of `next()` calls observing the given list of clock readings;
returns the final state and the list of snowflakes produced. -/
def SnowflakeFactory.run (f : SnowflakeFactory) :
    List Nat → SnowflakeFactory × List Snowflake
  | [] => (f, [])
  | t :: ts =>
    let r := f.next t
    let rest := r.1.run ts
    (rest.1, r.2 :: rest.2)

/-- Lexicographic order on (timestamp, machine id, sequence) triples,
timestamp-major, as the spec describes the identifier ordering. -/
def lexLt (a b : Nat × Nat × Nat) : Prop :=
  a.1 < b.1 ∨ (a.1 = b.1 ∧ (a.2.1 < b.2.1 ∨ (a.2.1 = b.2.1 ∧ a.2.2 < b.2.2)))

/-- The wall-clock instant "`t` milliseconds since the epoch", expressed in
microseconds: the instant `Snowflake::new` stored when it recorded `t`. -/
def wallClockMicrosOfMillis (t : Nat) : Int := 1000 * t

/-! ## Ground facts about the embedding -/

theorem new_raw (n s t : Nat) :
    Snowflake.new n s t =
      ⟨t % 2 ^ 43 * 2 ^ 20 + n % 2 ^ 10 * 2 ^ 10 + s % 2 ^ 10⟩ := by
  simp only [Snowflake.new, Snowflake.set_timestamp_raw, Snowflake.set_machine_id,
    Snowflake.set_sequence_id, Snowflake.mk.injEq]
  omega

theorem timestamp_raw_lt (s : Snowflake) : s.timestamp_raw < 2 ^ 43 := by
  simp only [Snowflake.timestamp_raw]
  omega

theorem timestamp_eq (s : Snowflake) :
    s.timestamp = ⟨(s.timestamp_raw : Int)⟩ := by
  have h := timestamp_raw_lt s
  have hc : (-8334601228800000000 : Int) ≤ (s.timestamp_raw : Int) ∧
      (s.timestamp_raw : Int) ≤ 8210266876799999999 := by omega
  simp [Snowflake.timestamp, Snowflake.timestampChecked, DateTime.fromTimestampMicros, hc]

theorem next_eq (f : SnowflakeFactory) (now : Nat) :
    f.next now =
      if f.last_timestamp_millis = now % 2 ^ 48 then
        ({ f with sequence_id := (f.sequence_id + 1) % 2 ^ 16 },
          Snowflake.new f.machine_id ((f.sequence_id + 1) % 2 ^ 16) now)
      else
        ({ f with sequence_id := 0, last_timestamp_millis := now % 2 ^ 48 },
          Snowflake.new f.machine_id 0 now) := by
  have h : now % 2 ^ 64 % (SNOWFLAKE_TIMESTAMP_MASK + 1) = now % 2 ^ 48 := by
    simp only [SNOWFLAKE_TIMESTAMP_MASK]
    omega
  simp only [SnowflakeFactory.next, h]
  split_ifs with hc <;> simp

theorem next_char (f : SnowflakeFactory) (now : Nat) :
    (f.next now).1.machine_id = f.machine_id ∧
    (f.next now).1.last_timestamp_millis = now % 2 ^ 48 ∧
    (f.next now).1.sequence_id =
      (if f.last_timestamp_millis = now % 2 ^ 48 then (f.sequence_id + 1) % 2 ^ 16
        else 0) ∧
    (f.next now).2 = Snowflake.new f.machine_id (f.next now).1.sequence_id now := by
  rw [next_eq]
  split_ifs with h
  · simp [h]
  · simp

theorem nextN_char (st : SnowflakeFactory) (m : Nat)
    (h : st.last_timestamp_millis ≠ m % 2 ^ 48) (k : Nat) :
    (st.nextN m k).1.machine_id = st.machine_id ∧
    (st.nextN m k).1.sequence_id = k % 2 ^ 16 ∧
    (st.nextN m k).1.last_timestamp_millis = m % 2 ^ 48 ∧
    (st.nextN m k).2 = Snowflake.new st.machine_id (k % 2 ^ 16) m := by
  induction k with
  | zero =>
    obtain ⟨m1, l1, s1, o1⟩ := next_char st m
    rw [if_neg h] at s1
    simp only [SnowflakeFactory.nextN]
    refine ⟨m1, by rw [s1]; omega, l1, ?_⟩
    rw [o1, s1]
    norm_num
  | succ k ih =>
    obtain ⟨ihm, ihs, ihl, iho⟩ := ih
    obtain ⟨m1, l1, s1, o1⟩ := next_char (st.nextN m k).1 m
    simp only [ihl, eq_self_iff_true, if_true] at s1
    simp only [SnowflakeFactory.nextN]
    have hs : (k % 2 ^ 16 + 1) % 2 ^ 16 = (k + 1) % 2 ^ 16 := by omega
    refine ⟨by rw [m1, ihm], by rw [s1, ihs, hs], l1, ?_⟩
    rw [o1, ihm, s1, ihs, hs]

/-! ## Claims -/

/-- C10: for every identifier value (in particular any with bit 63 clear),
the extracted raw timestamp field is below `2 ^ 43`, which is inside the
valid input range of `DateTime::from_timestamp_micros`, so the `.expect`
branch of `Snowflake::timestamp` is unreachable. -/
theorem timestamp_never_panics (s : Snowflake) :
    s.timestamp_raw < 2 ^ 43 ∧ s.timestampChecked.isSome = true := by
  have h := timestamp_raw_lt s
  refine ⟨h, ?_⟩
  have hc : (-8334601228800000000 : Int) ≤ (s.timestamp_raw : Int) ∧
      (s.timestamp_raw : Int) ≤ 8210266876799999999 := by omega
  simp [Snowflake.timestampChecked, DateTime.fromTimestampMicros, hc]

/-- C2: the claim says the timestamp accessor converts the stored raw field
with the unit it was stored in (milliseconds).  The code stores the
millisecond count `t` but decodes it with `DateTime::from_timestamp_micros`,
producing the instant `t` microseconds after the epoch instead of the stored
instant `1000 * t` microseconds after the epoch: at `t = 1` the decoded
timestamp has a raw microsecond payload of `1`, not `1000`. -/
theorem timestamp_unit_mismatch :
    (Snowflake.new 0 0 1).timestamp.micros = 1 ∧
    wallClockMicrosOfMillis 1 = 1000 ∧
    (Snowflake.new 0 0 1).timestamp.micros ≠ wallClockMicrosOfMillis 1 := by
  decide

/-- C3: for `t < 2 ^ 43`, `n < 2 ^ 10`, `s < 2 ^ 10`, decomposing
`encode(t, n, s)` (i.e. `Snowflake::new` with machine id `n`, sequence `s`,
and a time of `t` milliseconds) yields exactly the numbers `(t, n, s)`: the
machine-id and sequence components are `n` and `s`, and the timestamp
component is the `DateTime` whose raw payload is `t` (see C2 for the unit
attached to that payload). -/
theorem decompose_encode (t n s : Nat) (ht : t < 2 ^ 43) (hn : n < 2 ^ 10)
    (hs : s < 2 ^ 10) :
    (Snowflake.new n s t).decompose = (⟨(t : Int)⟩, n, s) := by
  have hT : (Snowflake.new n s t).timestamp_raw = t := by
    simp only [new_raw, Snowflake.timestamp_raw]
    omega
  have hM : (Snowflake.new n s t).machine_id = n := by
    simp only [new_raw, Snowflake.machine_id]
    omega
  have hS : (Snowflake.new n s t).sequence_id = s := by
    simp only [new_raw, Snowflake.sequence_id]
    omega
  simp [Snowflake.decompose, timestamp_eq, hT, hM, hS]

/-- C3 witness: the theorem applied at `(t, n, s) = (3, 4, 5)`. -/
theorem decompose_encode_at_3_4_5 :
    (3 : Nat) < 2 ^ 43 ∧ (4 : Nat) < 2 ^ 10 ∧ (5 : Nat) < 2 ^ 10 ∧
    (Snowflake.new 4 5 3).decompose = (⟨(3 : Int)⟩, 4, 5) :=
  ⟨by decide, by decide, by decide,
    decompose_encode 3 4 5 (by decide) (by decide) (by decide)⟩

/-- C5: `TryFrom<u64>` fails with `SnowflakeFormatError` exactly when bit 63
of the input is set, and succeeds (keeping all 63 remaining bits unvalidated)
whenever bit 63 is clear; in particular `0x8000000000000000` fails and `0`
succeeds. -/
theorem tryFromU64_bit63 (v : Nat) (_hv : v < 2 ^ 64) :
    (Snowflake.tryFromU64 v = Except.error SnowflakeFormatError.mk ↔
      Nat.testBit v 63 = true) ∧
    (Nat.testBit v 63 = false → Snowflake.tryFromU64 v = Except.ok ⟨v⟩) ∧
    Snowflake.tryFromU64 0x8000000000000000 = Except.error SnowflakeFormatError.mk ∧
    Snowflake.tryFromU64 0 = Except.ok ⟨0⟩ := by
  have hbit : Nat.testBit v 63 = decide (v / 2 ^ 63 % 2 = 1) :=
    Nat.testBit_to_div_mod
  by_cases h : v / 2 ^ 63 % 2 = 1 <;>
    simp [Snowflake.tryFromU64, h, hbit]

/-- C5 witness: the theorem applied at `v = 0`. -/
theorem tryFromU64_bit63_at_0 :
    (0 : Nat) < 2 ^ 64 ∧ Snowflake.tryFromU64 0 = Except.ok ⟨0⟩ :=
  ⟨by decide, (tryFromU64_bit63 0 (by decide)).2.1 (by decide)⟩

/-- C6: for every raw 64-bit value with bit 63 clear (`v < 2 ^ 63`),
converting to an identifier succeeds and converting back yields `v`
unchanged. -/
theorem toRaw_tryFromU64 (v : Nat) (hv : v < 2 ^ 63) :
    (Snowflake.tryFromU64 v).map Snowflake.toRaw = Except.ok v := by
  have h : ¬ v / 2 ^ 63 % 2 = 1 := by omega
  simp only [Snowflake.tryFromU64]
  rw [if_neg h]
  rfl

/-- C6 witness: the theorem applied at `v = 42`. -/
theorem toRaw_tryFromU64_at_42 :
    (42 : Nat) < 2 ^ 63 ∧
    (Snowflake.tryFromU64 42).map Snowflake.toRaw = Except.ok 42 :=
  ⟨by decide, toRaw_tryFromU64 42 (by decide)⟩

/-- C7: for every valid identifier (bit 63 clear), re-encoding the three
decomposed fields — the timestamp component's raw payload together with the
machine-id and sequence components — reproduces the original raw 64-bit
value exactly. -/
theorem encode_decompose (id : Snowflake) (h : id.raw < 2 ^ 63) :
    Snowflake.new id.decompose.2.1 id.decompose.2.2
      id.decompose.1.micros.toNat = id := by
  obtain ⟨r⟩ := id
  simp only [Snowflake.decompose, timestamp_eq, Int.toNat_natCast, new_raw,
    Snowflake.timestamp_raw, Snowflake.machine_id, Snowflake.sequence_id,
    Snowflake.mk.injEq] at *
  omega

/-- C7 witness: the theorem applied at the identifier with raw value
`0x123456789`. -/
theorem encode_decompose_at :
    (Snowflake.mk 0x123456789).raw < 2 ^ 63 ∧
    Snowflake.new (Snowflake.mk 0x123456789).decompose.2.1
      (Snowflake.mk 0x123456789).decompose.2.2
      (Snowflake.mk 0x123456789).decompose.1.micros.toNat =
      Snowflake.mk 0x123456789 :=
  ⟨by decide, encode_decompose (Snowflake.mk 0x123456789) (by decide)⟩

/-- C8: the identifier order (derived `Ord` on the wrapped u64) is unsigned
numeric comparison of the raw value, and on identifiers with bit 63 clear it
coincides with timestamp-major, machine-id-second, sequence-minor
lexicographic comparison of the decomposed fields. -/
theorem lt_iff_lex (x y : Snowflake) (hx : x.raw < 2 ^ 63) (hy : y.raw < 2 ^ 63) :
    (Snowflake.lt x y ↔ x.raw < y.raw) ∧
    (Snowflake.lt x y ↔
      lexLt (x.timestamp_raw, x.machine_id, x.sequence_id)
        (y.timestamp_raw, y.machine_id, y.sequence_id)) := by
  refine ⟨Iff.rfl, ?_⟩
  obtain ⟨a⟩ := x
  obtain ⟨b⟩ := y
  simp only [Snowflake.lt, lexLt, Snowflake.timestamp_raw, Snowflake.machine_id,
    Snowflake.sequence_id] at *
  omega

/-- C8 witness: the theorem applied at the identifiers with raw values 7
and 9. -/
theorem lt_iff_lex_at :
    (Snowflake.mk 7).raw < 2 ^ 63 ∧ (Snowflake.mk 9).raw < 2 ^ 63 ∧
    (Snowflake.lt (Snowflake.mk 7) (Snowflake.mk 9) ↔
      lexLt ((Snowflake.mk 7).timestamp_raw, (Snowflake.mk 7).machine_id,
          (Snowflake.mk 7).sequence_id)
        ((Snowflake.mk 9).timestamp_raw, (Snowflake.mk 9).machine_id,
          (Snowflake.mk 9).sequence_id)) :=
  ⟨by decide, by decide,
    (lt_iff_lex (Snowflake.mk 7) (Snowflake.mk 9) (by decide) (by decide)).2⟩

/-- C1 counterexample: with the factory state fresh (machine 0, sequence 0,
last timestamp 0), a call `a` at millisecond `2 ^ 43 - 1` followed by a call
`b` at millisecond `2 ^ 43` has the wall clock moving forward, only one call
in `a`'s millisecond, and yet `b` does not compare greater than `a`: the
timestamp field keeps only the low 43 bits of the millisecond count, so `b`'s
field wraps to 0. -/
theorem next_pair_not_mono :
    (2 ^ 43 - 1 : Nat) ≤ 2 ^ 43 ∧
    ((SnowflakeFactory.mk 0 0 0).next (2 ^ 43 - 1)).1.sequence_id + 1 < 2 ^ 10 ∧
    ¬ Snowflake.lt ((SnowflakeFactory.mk 0 0 0).next (2 ^ 43 - 1)).2
      ((((SnowflakeFactory.mk 0 0 0).next (2 ^ 43 - 1)).1).next (2 ^ 43)).2 := by
  decide

/-- C1 (amended): for two successive calls `a = next()` at millisecond `ta`
and `b = next()` at millisecond `tb` on one factory, `b` compares strictly
greater than `a` as unsigned 64-bit values, provided the wall clock does not
move backward (`ta ≤ tb`), fewer than 1024 calls occurred within `a`'s
millisecond (the sequence counter after `a` is at most 1022), and the
millisecond counts stay below `2 ^ 43` (so the 43-bit timestamp field does
not wrap). -/
theorem next_pair_lt (st : SnowflakeFactory) (ta tb : Nat)
    (hab : ta ≤ tb) (hb : tb < 2 ^ 43)
    (hseq : (st.next ta).1.sequence_id + 1 < 2 ^ 10) :
    Snowflake.lt (st.next ta).2 ((st.next ta).1.next tb).2 := by
  have ha : ta < 2 ^ 43 := Nat.lt_of_le_of_lt hab hb
  obtain ⟨m1, l1, s1, o1⟩ := next_char st ta
  obtain ⟨m2, l2, s2, o2⟩ := next_char (st.next ta).1 tb
  rw [o1, o2, m1, s2, l1, new_raw, new_raw]
  simp only [Snowflake.lt]
  split_ifs with h
  · omega
  · omega

/-- C1 witness: the amended theorem applied to a fresh factory with both
calls at millisecond 5. -/
theorem next_pair_lt_at :
    (5 : Nat) ≤ 5 ∧ (5 : Nat) < 2 ^ 43 ∧
    ((SnowflakeFactory.mk 0 0 0).next 5).1.sequence_id + 1 < 2 ^ 10 ∧
    Snowflake.lt ((SnowflakeFactory.mk 0 0 0).next 5).2
      ((((SnowflakeFactory.mk 0 0 0).next 5).1).next 5).2 :=
  ⟨by decide, by decide, by decide,
    next_pair_lt (SnowflakeFactory.mk 0 0 0) 5 5 (by decide) (by decide) (by decide)⟩

/-- C4: a factory issuing 1025 consecutive calls inside one millisecond `m`
(which starts fresh: the state's last observed millisecond differs from `m`)
emits at position 1025 (`nextN m 1024`) an identifier whose sequence field is
0 again and whose timestamp field is unchanged from position 1
(`nextN m 0`) — a duplicate of the position-1 identifier: the sequence wraps
modulo 1024 with no carry into the other fields. -/
theorem sequence_wraps_at_1025 (st : SnowflakeFactory) (m : Nat)
    (h : st.last_timestamp_millis ≠ m % 2 ^ 48) :
    (st.nextN m 1024).2.sequence_id = 0 ∧
    (st.nextN m 1024).2.timestamp_raw = (st.nextN m 0).2.timestamp_raw ∧
    (st.nextN m 1024).2 = (st.nextN m 0).2 := by
  obtain ⟨-, -, -, o1⟩ := nextN_char st m h 1024
  obtain ⟨-, -, -, o0⟩ := nextN_char st m h 0
  rw [o1, o0]
  refine ⟨?_, ?_, ?_⟩ <;>
    simp only [new_raw, Snowflake.sequence_id, Snowflake.timestamp_raw,
      Snowflake.mk.injEq] <;>
    omega

/-- C4 witness: the theorem applied to a fresh factory with the millisecond
reading 1. -/
theorem sequence_wraps_at_1025_at :
    (SnowflakeFactory.mk 0 0 0).last_timestamp_millis ≠ 1 % 2 ^ 48 ∧
    (((SnowflakeFactory.mk 0 0 0).nextN 1 1024).2.sequence_id = 0 ∧
      ((SnowflakeFactory.mk 0 0 0).nextN 1 1024).2.timestamp_raw =
        ((SnowflakeFactory.mk 0 0 0).nextN 1 0).2.timestamp_raw ∧
      ((SnowflakeFactory.mk 0 0 0).nextN 1 1024).2 =
        ((SnowflakeFactory.mk 0 0 0).nextN 1 0).2) :=
  ⟨by decide, sequence_wraps_at_1025 (SnowflakeFactory.mk 0 0 0) 1 (by decide)⟩

/-- C9: over any run of `next()` calls, the machine-id state field of the
factory is unchanged, every produced identifier carries the same extracted
machine-id field (the low 10 bits of the factory's machine id), and a single
`next()` call leaves the machine-id state field unchanged. -/
theorem machine_id_stable (st : SnowflakeFactory) (times : List Nat) :
    (st.run times).1.machine_id = st.machine_id ∧
    (∀ id ∈ (st.run times).2, id.machine_id = st.machine_id % 2 ^ 10) ∧
    ∀ now, (st.next now).1.machine_id = st.machine_id := by
  induction times generalizing st with
  | nil =>
    refine ⟨rfl, by simp [SnowflakeFactory.run], fun now => (next_char st now).1⟩
  | cons t ts ih =>
    obtain ⟨m1, l1, s1, o1⟩ := next_char st t
    obtain ⟨ihm, ihmem, -⟩ := ih (st.next t).1
    refine ⟨?_, ?_, fun now => (next_char st now).1⟩
    · simp only [SnowflakeFactory.run]
      rw [ihm, m1]
    · intro id hid
      simp only [SnowflakeFactory.run, List.mem_cons] at hid
      rcases hid with hh | hh
      · subst hh
        rw [o1, new_raw]
        simp only [Snowflake.machine_id]
        omega
      · have hm := ihmem id hh
        rw [m1] at hm
        exact hm

/-- C9 witness: the theorem applied to a factory with machine id 5 running
one call at millisecond 3, whose single output is `Snowflake.new 5 0 3`. -/
theorem machine_id_stable_at :
    (Snowflake.new 5 0 3).machine_id = 5 % 2 ^ 10 :=
  (machine_id_stable (SnowflakeFactory.mk 5 0 0) [3]).2.1 (Snowflake.new 5 0 3)
    (by decide)

end DataEater
